import Mathlib

/-!
Verification of the staff-level geometry and import routines of the engraving
engine (staff.cpp, iocmme.cpp), as a shallow embedding in Lean 4.

Each definition carries a pointer to the source location it embeds.
Machine integers are modelled as `Int`; the C++ comparison
`previous->second > iter->first + 1.5 * extension` (a double comparison whose
operands are exact integer / half-integer values) is embedded as the exactly
equivalent integer comparison `2 * prev.2 > 2 * d.1 + 3 * ext`.
-/

/-! ## LedgerLine (staff.cpp lines 301-341) -/

/-- `LedgerLine::AddDash` insertion loop (staff.cpp lines 320-323): walk the dash
list and insert the new dash `(left, right)` before the first dash whose left
edge is strictly greater than `left`. -/
def insertDash (left right : Int) : List (Int × Int) → List (Int × Int)
  | [] => [(left, right)]
  | d :: ds =>
    if left < d.1 then (left, right) :: d :: ds
    else d :: insertDash left right ds

/-- `LedgerLine::AddDash` merge loop (staff.cpp lines 328-340): `prev` is the
dash under the `previous` iterator, the list argument is the rest of the dashes.
When `previous->second > iter->first + 1.5 * extension` (embedded with both
sides doubled) the current dash is absorbed: `previous->second` becomes the
maximum of both right edges and the current entry is erased; otherwise
`previous` advances. -/
def mergeSweep (ext : Int) : (Int × Int) → List (Int × Int) → List (Int × Int)
  | prev, [] => [prev]
  | prev, d :: ds =>
    if 2 * d.1 + 3 * ext < 2 * prev.2 then mergeSweep ext (prev.1, max d.2 prev.2) ds
    else prev :: mergeSweep ext d ds

/-- Entry point of the merge loop: `previous` starts at `begin`, the sweep runs
over the remaining dashes (staff.cpp lines 328-330). -/
def mergeSweepStart (ext : Int) : List (Int × Int) → List (Int × Int)
  | [] => []
  | d :: ds => mergeSweep ext d ds

/-- `LedgerLine::AddDash` (staff.cpp lines 313-341): insert the dash sorted by
left edge, then run the single forward merge sweep. -/
def addDash (left right ext : Int) (dashes : List (Int × Int)) : List (Int × Int) :=
  mergeSweepStart ext (insertDash left right dashes)

theorem insertDash_ne_nil (left right : Int) (l : List (Int × Int)) :
    insertDash left right l ≠ [] := by
  cases l with
  | nil => simp [insertDash]
  | cons d ds =>
    simp only [insertDash]
    split <;> simp

theorem insertDash_head? (left right : Int) (l : List (Int × Int)) (q : Int × Int)
    (hq : (insertDash left right l).head? = some q) :
    q = (left, right) ∨ l.head? = some q := by
  cases l with
  | nil =>
    simp only [insertDash, List.head?_cons, Option.some.injEq] at hq
    exact Or.inl hq.symm
  | cons d ds =>
    simp only [insertDash] at hq
    split at hq <;> simp_all

theorem insertDash_sorted (left right : Int) :
    ∀ (l : List (Int × Int)), List.Chain' (fun a b : Int × Int => a.1 ≤ b.1) l →
      List.Chain' (fun a b : Int × Int => a.1 ≤ b.1) (insertDash left right l) := by
  intro l
  induction l with
  | nil => intro _; simp [insertDash]
  | cons d ds ih =>
    intro h
    rw [List.chain'_cons'] at h
    simp only [insertDash]
    split
    · rename_i hlt
      refine List.chain'_cons'.2 ⟨?_, List.chain'_cons'.2 h⟩
      intro q hq
      simp only [List.head?_cons, Option.mem_def, Option.some.injEq] at hq
      subst hq
      exact le_of_lt hlt
    · rename_i hge
      refine List.chain'_cons'.2 ⟨?_, ih h.2⟩
      intro q hq
      rcases insertDash_head? left right ds q hq with hnew | hold
      · subst hnew
        exact le_of_not_lt hge
      · exact h.1 q hold

theorem mergeSweep_head (ext : Int) :
    ∀ (l : List (Int × Int)) (prev : Int × Int),
      ∃ q l2, mergeSweep ext prev l = q :: l2 ∧ q.1 = prev.1 := by
  intro l
  induction l with
  | nil => intro prev; exact ⟨prev, [], rfl, rfl⟩
  | cons d ds ih =>
    intro prev
    simp only [mergeSweep]
    split
    · obtain ⟨q, l2, he, h1⟩ := ih (prev.1, max d.2 prev.2)
      exact ⟨q, l2, he, h1⟩
    · exact ⟨prev, mergeSweep ext d ds, rfl, rfl⟩

theorem mergeSweep_sorted_sep (ext : Int) :
    ∀ (l : List (Int × Int)) (prev : Int × Int),
      List.Chain' (fun a b : Int × Int => a.1 ≤ b.1) (prev :: l) →
      List.Chain' (fun a b : Int × Int => a.1 ≤ b.1) (mergeSweep ext prev l) ∧
      List.Chain' (fun a b : Int × Int => 2 * a.2 ≤ 2 * b.1 + 3 * ext) (mergeSweep ext prev l) := by
  intro l
  induction l with
  | nil => intro prev _; simp [mergeSweep]
  | cons d ds ih =>
    intro prev h
    rw [List.chain'_cons'] at h
    obtain ⟨hhead, htail⟩ := h
    rw [List.chain'_cons'] at htail
    have hpd : prev.1 ≤ d.1 := hhead d (by simp)
    simp only [mergeSweep]
    split
    · rename_i hmerge
      apply ih (prev.1, max d.2 prev.2)
      refine List.chain'_cons'.2 ⟨?_, htail.2⟩
      intro q hq
      exact le_trans hpd (htail.1 q hq)
    · rename_i hnomerge
      have hds : List.Chain' (fun a b : Int × Int => a.1 ≤ b.1) (d :: ds) :=
        List.chain'_cons'.2 htail
      obtain ⟨hsort, hsep⟩ := ih d hds
      obtain ⟨q, l2, he, h1⟩ := mergeSweep_head ext ds d
      constructor
      · refine List.chain'_cons'.2 ⟨?_, hsort⟩
        intro r hr
        rw [he] at hr
        simp only [List.head?_cons, Option.mem_def, Option.some.injEq] at hr
        subst hr
        rw [h1]
        exact hpd
      · refine List.chain'_cons'.2 ⟨?_, hsep⟩
        intro r hr
        rw [he] at hr
        simp only [List.head?_cons, Option.mem_def, Option.some.injEq] at hr
        subst hr
        rw [h1]
        omega

/-- C1: adding a second dash to a slot that holds one dash `(l1, r1)` with
`l1 ≤ l2` keeps the sorted order and merges exactly when the earlier dash's
right edge exceeds the later dash's left edge by more than 1.5 times the
extension unit, the merged dash taking the maximum of the two right edges. -/
theorem addDash_merge_boundary (l1 r1 l2 r2 ext : Int)
    (h1 : l1 < r1) (h2 : l2 < r2) (h12 : l1 ≤ l2) :
    (2 * l2 + 3 * ext < 2 * r1 → addDash l2 r2 ext [(l1, r1)] = [(l1, max r2 r1)]) ∧
    (2 * r1 ≤ 2 * l2 + 3 * ext → addDash l2 r2 ext [(l1, r1)] = [(l1, r1), (l2, r2)]) := by
  have hins : insertDash l2 r2 [(l1, r1)] = [(l1, r1), (l2, r2)] := by
    simp only [insertDash]
    rw [if_neg (by omega)]
  constructor
  · intro hm
    simp only [addDash, hins, mergeSweepStart, mergeSweep]
    rw [if_pos (by omega)]
  · intro hm
    simp only [addDash, hins, mergeSweepStart, mergeSweep]
    rw [if_neg (by omega)]

/-- Witness for C1: with extension 2, dashes (0,10) and (8,20) stay separate
(`10 > 8 + 3` is false) while (0,10) and (5,20) merge into (0,20). -/
theorem addDash_merge_boundary_witness :
    addDash 8 20 2 [(0, 10)] = [(0, 10), (8, 20)] ∧
    addDash 5 20 2 [(0, 10)] = [(0, 20)] := by
  constructor
  · exact (addDash_merge_boundary 0 10 8 20 2 (by decide) (by decide) (by decide)).2 (by decide)
  · have h := (addDash_merge_boundary 0 10 5 20 2 (by decide) (by decide) (by decide)).1 (by decide)
    rw [h]
    decide

/-- C7: for every call `AddDash(left, right, ext)` with `left < right` on a dash
list sorted by left edge, the resulting list is again sorted by left edge and no
adjacent pair has the earlier dash's right edge exceeding the later dash's left
edge by more than 1.5 times the extension unit. -/
theorem addDash_invariant (left right ext : Int) (dashes : List (Int × Int))
    (hlr : left < right)
    (hs : List.Chain' (fun a b : Int × Int => a.1 ≤ b.1) dashes) :
    List.Chain' (fun a b : Int × Int => a.1 ≤ b.1) (addDash left right ext dashes) ∧
    List.Chain' (fun a b : Int × Int => 2 * a.2 ≤ 2 * b.1 + 3 * ext)
      (addDash left right ext dashes) := by
  have hsorted := insertDash_sorted left right dashes hs
  rcases hi : insertDash left right dashes with _ | ⟨d, ds⟩
  · exact absurd hi (insertDash_ne_nil left right dashes)
  · rw [hi] at hsorted
    simp only [addDash, hi, mergeSweepStart]
    exact mergeSweep_sorted_sep ext ds d hsorted

/-- Witness for C7 at a concrete call. -/
theorem addDash_invariant_witness :
    List.Chain' (fun a b : Int × Int => a.1 ≤ b.1) (addDash 5 20 2 [(0, 10)]) ∧
    List.Chain' (fun a b : Int × Int => 2 * a.2 ≤ 2 * b.1 + 3 * 2) (addDash 5 20 2 [(0, 10)]) :=
  addDash_invariant 5 20 2 [(0, 10)] (by decide) (by simp)

/-! ## Stem resolution: Staff::CalcStem (staff.cpp lines 522-567) -/

/-- Drawing stem direction values (`STEMDIRECTION_up` / `STEMDIRECTION_down`). -/
inductive StemDir where
  | up
  | down
deriving DecidableEq

/-- A layer as seen by `Staff::CalcStem`: its numeric index `@n`, whether the
`IsEmptyComparison(LAYER)` predicate holds for it, the cross-staff-origin flags
queried by `HasCrossStaffFromBelow` / `HasCrossStaffFromAbove`, and its drawing
stem direction (`none` = unset). -/
structure Layer where
  n : Nat
  isEmpty : Bool
  crossStaffFromBelow : Bool
  crossStaffFromAbove : Bool
  stemDir : Option StemDir
deriving DecidableEq

/-- `Staff::CalcStem` (staff.cpp lines 522-567) acting on the staff's list of
descendant layers: with fewer than two layers only the cross-staff flags can
force a direction on the single layer; with `layers.size() < 3` and at least one
empty layer the function returns without touching any direction; otherwise the
empty layers are removed from consideration (`std::set_difference`) and every
remaining layer gets direction up when its `@n` is odd and down when even. -/
def calcStem (layers : List Layer) : List Layer :=
  if layers.length < 2 then
    layers.map (fun l =>
      if l.crossStaffFromBelow = true then { l with stemDir := some StemDir.up }
      else if l.crossStaffFromAbove = true then { l with stemDir := some StemDir.down }
      else l)
  else if layers.length < 3 ∧ layers.any (fun l => l.isEmpty) = true then layers
  else
    layers.map (fun l =>
      if l.isEmpty = true then l
      else { l with stemDir := some (if l.n % 2 = 1 then StemDir.up else StemDir.down) })

/-- Three layers with `@n` 1, 2, 3: the first two structurally empty, the third
with content, all stem directions unset. -/
def ambiguousClaimLayers : List Layer :=
  [{ n := 1, isEmpty := true, crossStaffFromBelow := false, crossStaffFromAbove := false,
     stemDir := none },
   { n := 2, isEmpty := true, crossStaffFromBelow := false, crossStaffFromAbove := false,
     stemDir := none },
   { n := 3, isEmpty := false, crossStaffFromBelow := false, crossStaffFromAbove := false,
     stemDir := none }]

/-- C2 counterexample: on a staff with layers {1: empty, 2: empty, 3: non-empty}
removing the empty layers leaves fewer than 2 non-empty layers while empty
layers exist, so the claimed rule demands every stem direction be left unset;
`Staff::CalcStem` instead assigns layer 3 the direction up (its `@n` is odd),
because its ambiguous-case guard tests `layers.size() < 3`, not the number of
non-empty layers remaining. -/
theorem calcStem_claim_counterexample :
    (2 ≤ ambiguousClaimLayers.length ∧
      (ambiguousClaimLayers.filter (fun l => l.isEmpty = false)).length < 2 ∧
      ambiguousClaimLayers.any (fun l => l.isEmpty) = true ∧
      ambiguousClaimLayers.all (fun l => l.stemDir = none) = true) ∧
    (calcStem ambiguousClaimLayers).map (fun l => l.stemDir)
      = [none, none, some StemDir.up] := by
  decide

/-- C2 (amended): when `Staff::CalcStem` runs on a staff with at least two
layers, the ambiguous case applies exactly when the staff has fewer than three
layers in total while an empty layer is present — with at least two layers this
means exactly two layers, at least one empty — and then every layer is left
untouched, so all drawing stem directions stay unset; in particular for layers
{1: empty, 2: non-empty} both directions are left unset. -/
theorem calcStem_ambiguous (layers : List Layer) (hlen : layers.length = 2)
    (hemp : layers.any (fun l => l.isEmpty) = true) :
    calcStem layers = layers := by
  unfold calcStem
  rw [if_neg (by omega), if_pos ⟨by omega, hemp⟩]

/-- Witness for C2 (amended): layers {1: empty, 2: non-empty}, both directions
unset before the pass, stay unset. -/
theorem calcStem_ambiguous_witness :
    calcStem
      [{ n := 1, isEmpty := true, crossStaffFromBelow := false, crossStaffFromAbove := false,
         stemDir := none },
       { n := 2, isEmpty := false, crossStaffFromBelow := false, crossStaffFromAbove := false,
         stemDir := none }]
    = [{ n := 1, isEmpty := true, crossStaffFromBelow := false, crossStaffFromAbove := false,
         stemDir := none },
       { n := 2, isEmpty := false, crossStaffFromBelow := false, crossStaffFromAbove := false,
         stemDir := none }] :=
  calcStem_ambiguous _ (by decide) (by decide)

/-- C8: with at least two layers and the ambiguous case (`layers.size() < 3`
with an empty layer present) not applying, `Staff::CalcStem` assigns every
non-empty layer a drawing stem direction by its own numeric parity — odd `@n`
up, even `@n` down — while empty layers are left untouched. -/
theorem calcStem_parity (layers : List Layer) (h2 : 2 ≤ layers.length)
    (hamb : ¬(layers.length < 3 ∧ layers.any (fun l => l.isEmpty) = true)) :
    List.Forall₂ (fun l lr =>
        (l.isEmpty = false →
          lr = { l with stemDir := some (if l.n % 2 = 1 then StemDir.up else StemDir.down) }) ∧
        (l.isEmpty = true → lr = l))
      layers (calcStem layers) := by
  unfold calcStem
  rw [if_neg (by omega), if_neg hamb]
  rw [List.forall₂_map_right_iff, List.forall₂_same]
  intro l _
  constructor
  · intro he
    rw [if_neg (by simp [he])]
  · intro he
    rw [if_pos he]

/-- Witness for C8: layers {1: empty, 2: non-empty, 3: non-empty} yield
layer 2 = down, layer 3 = up, layer 1 untouched. -/
theorem calcStem_parity_witness :
    List.Forall₂ (fun l lr =>
        (l.isEmpty = false →
          lr = { l with stemDir := some (if l.n % 2 = 1 then StemDir.up else StemDir.down) }) ∧
        (l.isEmpty = true → lr = l))
      ambiguousClaimLayers (calcStem ambiguousClaimLayers) :=
  calcStem_parity ambiguousClaimLayers (by decide) (by decide)

/-! ## Staff state, Reset, CloneReset and cast-off (staff.cpp lines 45-101, 367-381) -/

/-- `VRV_UNSET` sentinel for unset integer values. -/
def VRV_UNSET : Int := -2147483647

/-- `@notationtype` values relevant to the staff drawing state
(`NOTATIONTYPE_NONE` is the reset value). -/
inductive NotationKind where
  | notSet
  | cmn
  | mensural
  | neume
  | tab
deriving DecidableEq

/-- The Staff node state: persistent identifier, `@n`, owned children (as
abstract handles), the `@facs`-derived Y when a facsimile zone is attached
(`none` = `HasFacs()` false), and the drawing state fields set by
`Staff::Reset` (staff.cpp lines 60-80): absolute-Y override `m_yAbs`, the
cached drawing Y of the Object base, staff size, line count, notation type,
alignment slot reference (carrying its relative offset), transient
time-spanning element list, staff-definition and tuning references, and the
four ledger-line buffers. -/
structure Staff where
  id : Nat
  n : Nat
  children : List Nat
  facs : Option Int
  yAbs : Int
  cachedDrawingY : Int
  drawingStaffSize : Int
  drawingLines : Int
  notationKind : NotationKind
  staffAlignment : Option Int
  timeSpanningElements : List Nat
  drawingStaffDef : Option Nat
  drawingTuning : Option Nat
  ledgerLinesAbove : List (List (Int × Int))
  ledgerLinesBelow : List (List (Int × Int))
  ledgerLinesAboveCue : List (List (Int × Int))
  ledgerLinesBelowCue : List (List (Int × Int))
deriving DecidableEq

/-- The state of a freshly constructed staff, i.e. the state established by
`Staff::Reset` (staff.cpp lines 60-80) on a node with no children: `m_yAbs`
unset, staff size 100, 5 lines, no notation type, no alignment slot, empty
time-spanning list, no staff definition or tuning, all four ledger-line buffers
cleared; the cached-drawing-Y reset comes from `Object::Reset` and the `@facs`
reset from `FacsimileInterface::Reset`, both modelled from the spec (the Object
base class is not part of the analysed sources). -/
def freshStaff (id n : Nat) : Staff :=
  { id := id, n := n, children := [], facs := none, yAbs := VRV_UNSET,
    cachedDrawingY := VRV_UNSET, drawingStaffSize := 100, drawingLines := 5,
    notationKind := NotationKind.notSet, staffAlignment := none,
    timeSpanningElements := [], drawingStaffDef := none, drawingTuning := none,
    ledgerLinesAbove := [], ledgerLinesBelow := [], ledgerLinesAboveCue := [],
    ledgerLinesBelowCue := [] }

/-- `Staff::CloneReset` (staff.cpp lines 82-93): resets staff size, line count,
notation type, alignment reference, time-spanning list, staff-definition and
tuning references. It does not touch `m_yAbs` or the ledger-line buffers. The
`Object::CloneReset` call is modelled from the spec as resetting the cached
drawing Y (transient caches of a clone behave as freshly constructed). -/
def cloneReset (s : Staff) : Staff :=
  { s with
    cachedDrawingY := VRV_UNSET, drawingStaffSize := 100, drawingLines := 5,
    notationKind := NotationKind.notSet, staffAlignment := none,
    timeSpanningElements := [], drawingStaffDef := none, drawingTuning := none }

/-- Modelled from the spec: copy construction `new Staff(*this)` (the Object
copy constructor is not part of the analysed sources) copies every attribute
member-wise while the Object base assigns a freshly generated identifier. -/
def copyWithFreshId (s : Staff) (freshId : Nat) : Staff :=
  { s with id := freshId }

/-- `Object::ClearChildren` on the clone (staff.cpp line 373). -/
def clearChildren (s : Staff) : Staff :=
  { s with children := [] }

/-- Modelled from the spec: `Object::SwapID` (staff.cpp line 376, "Keep the
xml:id of the staff in the first staff segment") exchanges the persistent
identifiers of the two nodes. -/
def swapID (a b : Staff) : Staff × Staff :=
  ({ a with id := b.id }, { b with id := a.id })

/-- `Staff::ConvertToCastOffMensural` (staff.cpp lines 367-381): clone the
staff, clear the clone's children, reset its drawing state, swap the persistent
identifiers so the clone (attached to the target measure) keeps the original
identifier. Returns (target staff, original staff after the call). -/
def convertToCastOffMensural (s : Staff) (freshId : Nat) : Staff × Staff :=
  swapID (cloneReset (clearChildren (copyWithFreshId s freshId))) s

/-- C3: splitting a staff with persistent identifier X yields exactly one
resulting staff carrying X — the newly created clone attached to the target
measure — while the original staff is assigned the distinct freshly generated
identifier; no third node is produced, so no third node carries X. -/
theorem castOff_identity (s : Staff) (freshId : Nat) (hf : freshId ≠ s.id) :
    (convertToCastOffMensural s freshId).1.id = s.id ∧
    (convertToCastOffMensural s freshId).2.id = freshId ∧
    (convertToCastOffMensural s freshId).2.id ≠ s.id := by
  refine ⟨rfl, rfl, hf⟩

/-- Witness for C3 at a concrete staff. -/
theorem castOff_identity_witness :
    (convertToCastOffMensural (freshStaff 7 1) 8).1.id = (freshStaff 7 1).id ∧
    (convertToCastOffMensural (freshStaff 7 1) 8).2.id = 8 ∧
    (convertToCastOffMensural (freshStaff 7 1) 8).2.id ≠ (freshStaff 7 1).id :=
  castOff_identity (freshStaff 7 1) 8 (by decide)

/-- A staff about to be cast off that carries a set absolute-Y override, two
children and a non-empty ledger-line buffer. -/
def castOffSample : Staff :=
  { freshStaff 7 1 with yAbs := 42, children := [3, 4], ledgerLinesAbove := [[(0, 5)]] }

/-- C4 counterexample: for a staff whose absolute-Y override is 42 and whose
above-buffer holds one dash, the cast-off clone keeps both values —
`Staff::CloneReset` never touches `m_yAbs` or the ledger-line buffers — so the
clone's state differs from the state `Staff::Reset` establishes on a new staff
(`m_yAbs = VRV_UNSET`, empty buffers), contradicting the claim that all the
listed caches equal the freshly-constructed state. -/
theorem castOff_cloneReset_counterexample :
    (convertToCastOffMensural castOffSample 9).1.children = [] ∧
    (convertToCastOffMensural castOffSample 9).1.yAbs = 42 ∧
    (convertToCastOffMensural castOffSample 9).1.yAbs ≠ (freshStaff 7 1).yAbs ∧
    (convertToCastOffMensural castOffSample 9).1.ledgerLinesAbove = [[(0, 5)]] ∧
    (convertToCastOffMensural castOffSample 9).1.ledgerLinesAbove
      ≠ (freshStaff 7 1).ledgerLinesAbove := by
  decide

/-- C4 (amended): the cast-off clone attached to the target measure has no
children, and the caches `Staff::CloneReset` covers — staff size, line count,
notation type, alignment reference, time-spanning list, staff-definition and
tuning references — together with the cached drawing Y equal the state
`Staff::Reset` establishes on a new staff; the absolute-Y override and the four
ledger-line buffers are instead copied unchanged from the original, so they
equal the freshly-constructed state only when the original's already did. -/
theorem castOff_clone_state (s : Staff) (freshId : Nat) :
    (convertToCastOffMensural s freshId).1.children = [] ∧
    (convertToCastOffMensural s freshId).1.drawingStaffSize = 100 ∧
    (convertToCastOffMensural s freshId).1.drawingLines = 5 ∧
    (convertToCastOffMensural s freshId).1.notationKind = NotationKind.notSet ∧
    (convertToCastOffMensural s freshId).1.staffAlignment = none ∧
    (convertToCastOffMensural s freshId).1.timeSpanningElements = [] ∧
    (convertToCastOffMensural s freshId).1.drawingStaffDef = none ∧
    (convertToCastOffMensural s freshId).1.drawingTuning = none ∧
    (convertToCastOffMensural s freshId).1.cachedDrawingY = VRV_UNSET ∧
    (convertToCastOffMensural s freshId).1.yAbs = s.yAbs ∧
    (convertToCastOffMensural s freshId).1.ledgerLinesAbove = s.ledgerLinesAbove ∧
    (convertToCastOffMensural s freshId).1.ledgerLinesBelow = s.ledgerLinesBelow ∧
    (convertToCastOffMensural s freshId).1.ledgerLinesAboveCue = s.ledgerLinesAboveCue ∧
    (convertToCastOffMensural s freshId).1.ledgerLinesBelowCue = s.ledgerLinesBelowCue := by
  refine ⟨rfl, rfl, rfl, rfl, rfl, rfl, rfl, rfl, rfl, rfl, rfl, rfl, rfl, rfl⟩

/-! ## Staff::PrepareStaffCurrentTimeSpanning (staff.cpp lines 469-489) -/

/-- A time-spanning element as seen by the pass: its start measure (measures are
identified by their index in document order) and the staff numbers its span is
active on. `GetStartMeasure` and `IsOnStaff` belong to `TimeSpanningInterface`,
modelled from the spec ("whose span is active on this staff's number"). -/
structure SpanElem where
  startMeasure : Nat
  staves : List Nat
deriving DecidableEq

/-- `Staff::PrepareStaffCurrentTimeSpanning` (staff.cpp lines 469-489): walk the
pass-wide element list and append to the staff's transient list every element
whose start measure is not the staff's current measure and whose span is on this
staff's number. -/
def prepareStaffCurrentTimeSpanning (passElems : List SpanElem)
    (currentMeasure staffN : Nat) (staffElems : List SpanElem) : List SpanElem :=
  staffElems ++ passElems.filter
    (fun e => decide (e.startMeasure ≠ currentMeasure ∧ staffN ∈ e.staves))

/-- C5: provided every element of the pass-wide list started in the current
measure or an earlier one (the invariant of the collecting pass), exactly those
elements whose start measure precedes the staff's current measure and whose span
is active on this staff's number are appended, in order, to the staff's
transient list; and no appended element starts in the current measure. -/
theorem prepare_spanning (passElems : List SpanElem) (currentMeasure staffN : Nat)
    (staffElems : List SpanElem)
    (hstarted : ∀ e ∈ passElems, e.startMeasure ≤ currentMeasure) :
    prepareStaffCurrentTimeSpanning passElems currentMeasure staffN staffElems =
      staffElems ++ passElems.filter
        (fun e => decide (e.startMeasure < currentMeasure ∧ staffN ∈ e.staves)) ∧
    ∀ e ∈ passElems.filter
        (fun e => decide (e.startMeasure ≠ currentMeasure ∧ staffN ∈ e.staves)),
      e.startMeasure ≠ currentMeasure := by
  constructor
  · unfold prepareStaffCurrentTimeSpanning
    congr 1
    apply List.filter_congr
    intro e he
    have hle := hstarted e he
    simp only [decide_eq_decide]
    constructor
    · rintro ⟨hne, hmem⟩
      exact ⟨by omega, hmem⟩
    · rintro ⟨hlt, hmem⟩
      exact ⟨by omega, hmem⟩
  · intro e he
    rw [List.mem_filter] at he
    have := of_decide_eq_true he.2
    exact this.1

/-- Witness for C5: with the pass list holding elements started in measures 0,
1, 0 (spans on staves {1}, {1}, {2}), current measure 1 and staff number 1,
exactly the first element is appended. -/
theorem prepare_spanning_witness :
    prepareStaffCurrentTimeSpanning
      [{ startMeasure := 0, staves := [1] }, { startMeasure := 1, staves := [1] },
       { startMeasure := 0, staves := [2] }] 1 1 []
    = [{ startMeasure := 0, staves := [1] }] := by
  have h := (prepare_spanning
    [{ startMeasure := 0, staves := [1] }, { startMeasure := 1, staves := [1] },
     { startMeasure := 0, staves := [2] }] 1 1 [] (by decide)).1
  rw [h]
  decide

/-! ## Staff::GetDrawingY (staff.cpp lines 135-156) -/

/-- `Staff::GetDrawingY` (staff.cpp lines 135-156): (a) with `@facs` present and
the document in facsimile mode, return the facsimile-derived Y; (b) else with
the absolute-Y override set, return it; (c) else with no alignment slot
assigned, return 0; (d) else return the cached value if set, otherwise compute
the owning system's drawing Y plus the alignment slot's relative offset and
cache it. Returns the value together with the staff state after the call. -/
def getDrawingY (docIsFacs : Bool) (systemY : Int) (s : Staff) : Int × Staff :=
  if s.facs.isSome ∧ docIsFacs = true then (s.facs.getD 0, s)
  else if s.yAbs ≠ VRV_UNSET then (s.yAbs, s)
  else
    match s.staffAlignment with
    | none => (0, s)
    | some yRel =>
      if s.cachedDrawingY ≠ VRV_UNSET then (s.cachedDrawingY, s)
      else (systemY + yRel, { s with cachedDrawingY := systemY + yRel })

/-- C6: `Staff::GetDrawingY` resolves in exactly this priority order: (a) with a
facsimile position and the document in facsimile mode, the facsimile-derived Y;
(b) else with the absolute-Y override set (not `VRV_UNSET`), that override; (c)
else with no alignment slot assigned, 0; (d) else the owning system's drawing Y
plus the alignment slot's relative offset; and calling it again on the state it
returns yields the same value and state (the computed value is cached). -/
theorem getDrawingY_priority (docIsFacs : Bool) (systemY : Int) (s : Staff) :
    (∀ fy, s.facs = some fy → docIsFacs = true →
      getDrawingY docIsFacs systemY s = (fy, s)) ∧
    (¬(s.facs.isSome ∧ docIsFacs = true) → s.yAbs ≠ VRV_UNSET →
      getDrawingY docIsFacs systemY s = (s.yAbs, s)) ∧
    (¬(s.facs.isSome ∧ docIsFacs = true) → s.yAbs = VRV_UNSET →
      s.staffAlignment = none → getDrawingY docIsFacs systemY s = (0, s)) ∧
    (∀ yRel, ¬(s.facs.isSome ∧ docIsFacs = true) → s.yAbs = VRV_UNSET →
      s.staffAlignment = some yRel → s.cachedDrawingY = VRV_UNSET →
      (getDrawingY docIsFacs systemY s).1 = systemY + yRel) ∧
    getDrawingY docIsFacs systemY (getDrawingY docIsFacs systemY s).2
      = getDrawingY docIsFacs systemY s := by
  refine ⟨?_, ?_, ?_, ?_, ?_⟩
  · intro fy hf hd
    simp [getDrawingY, hf, hd]
  · intro hnf hy
    simp only [getDrawingY, if_neg hnf, if_pos hy]
  · intro hnf hy hal
    simp [getDrawingY, if_neg hnf, hy, hal]
  · intro yRel hnf hy hal hc
    simp [getDrawingY, if_neg hnf, hy, hal, hc]
  · by_cases h1 : s.facs.isSome ∧ docIsFacs = true
    · simp [getDrawingY, h1]
    · by_cases h2 : s.yAbs ≠ VRV_UNSET
      · simp only [getDrawingY, if_neg h1, if_pos h2]
      · rcases hal : s.staffAlignment with _ | yRel
        · simp [getDrawingY, if_neg h1, h2, hal]
        · by_cases h3 : s.cachedDrawingY ≠ VRV_UNSET
          · simp only [getDrawingY, if_neg h1, if_neg h2, hal, if_pos h3]
          · simp only [getDrawingY, if_neg h1, if_neg h2, hal, if_neg h3]
            by_cases h4 : systemY + yRel ≠ VRV_UNSET
            · simp [if_neg h1, h2, hal, h4]
            · simp only [ne_eq, not_not] at h4
              simp [if_neg h1, h2, hal, h4]

/-- Witness for C6 in case (d): a staff with no facsimile position, unset
absolute-Y, alignment offset 5 and system Y 100 resolves to 105. -/
theorem getDrawingY_priority_witness :
    (getDrawingY false 100 { freshStaff 1 1 with staffAlignment := some 5 }).1 = 100 + 5 :=
  (getDrawingY_priority false 100
    { freshStaff 1 1 with staffAlignment := some 5 }).2.2.2.1 5
    (by decide) (by decide) (by decide) (by decide)

/-! ## Staff::IsSupportedChild and AddChild (staff.cpp lines 103-121) -/

/-- Node kinds relevant to `Staff::IsSupportedChild`: the layer kind, the
editorial-element kinds (`Object::IsEditorialElement`), and assorted
unsupported kinds. -/
inductive ClassKind where
  | layer
  | sic
  | corr
  | app
  | note
  | rest
  | clef
  | measure
  | verse
deriving DecidableEq

/-- `Object::IsEditorialElement` restricted to the modelled kinds. -/
def isEditorialElement : ClassKind → Bool
  | ClassKind.sic => true
  | ClassKind.corr => true
  | ClassKind.app => true
  | _ => false

/-- A prospective child node: its kind and, for layers, the optional `@n`. -/
structure ChildNode where
  kind : ClassKind
  layerN : Option Nat
deriving DecidableEq

/-- `Staff::IsSupportedChild` (staff.cpp lines 103-121): a layer is accepted,
receiving `@n` = one plus the staff's current layer-child count when it has
none; an editorial element is accepted; everything else is rejected. Returns
the verdict and the (possibly renumbered) child. -/
def isSupportedChild (children : List ChildNode) (child : ChildNode) :
    Bool × ChildNode :=
  if child.kind = ClassKind.layer then
    if child.layerN.isNone then
      (true, { child with
        layerN := some ((children.filter (fun c => c.kind = ClassKind.layer)).length + 1) })
    else (true, child)
  else if isEditorialElement child.kind = true then (true, child)
  else (false, child)

/-- Modelled from the spec: `Object::AddChild` (the Object base class is not
part of the analysed sources) consults the supported-child predicate, appends
the child and reports success when it accepts, and leaves the child list
unchanged while reporting rejection when it declines. -/
def addChild (children : List ChildNode) (child : ChildNode) :
    Bool × List ChildNode :=
  let r := isSupportedChild children child
  if r.1 = true then (true, children ++ [r.2]) else (false, children)

/-- C9: adding a child of an unsupported kind — neither the layer kind nor an
editorial-element kind — to a staff makes the supported-child predicate return
false and leaves the staff's child list entirely unchanged, while a layer-kind
or editorial-element child is accepted and appended. -/
theorem addChild_supported (children : List ChildNode) (bad good : ChildNode)
    (hbl : bad.kind ≠ ClassKind.layer) (hbe : isEditorialElement bad.kind = false)
    (hgood : good.kind = ClassKind.layer ∨ isEditorialElement good.kind = true) :
    (isSupportedChild children bad).1 = false ∧
    addChild children bad = (false, children) ∧
    (isSupportedChild children good).1 = true ∧
    (addChild children good).2 = children ++ [(isSupportedChild children good).2] := by
  have hbadv : (isSupportedChild children bad).1 = false := by
    simp [isSupportedChild, hbl, hbe]
  have hgoodv : (isSupportedChild children good).1 = true := by
    rcases hgood with h | h
    · simp only [isSupportedChild, if_pos h]
      by_cases hn : good.layerN.isNone <;> simp [hn]
    · by_cases hgl : good.kind = ClassKind.layer
      · simp only [isSupportedChild, if_pos hgl]
        by_cases hn : good.layerN.isNone <;> simp [hn]
      · simp [isSupportedChild, hgl, h]
  refine ⟨hbadv, ?_, hgoodv, ?_⟩
  · simp [addChild, hbadv]
  · simp [addChild, hgoodv]

/-- Witness for C9: a note child is rejected with the child list untouched; a
layer child is accepted and appended. -/
theorem addChild_supported_witness :
    (isSupportedChild [] { kind := ClassKind.note, layerN := none }).1 = false ∧
    addChild [] { kind := ClassKind.note, layerN := none } = (false, []) ∧
    (isSupportedChild [] { kind := ClassKind.layer, layerN := none }).1 = true ∧
    (addChild [] { kind := ClassKind.layer, layerN := none }).2
      = [] ++ [(isSupportedChild [] { kind := ClassKind.layer, layerN := none }).2] :=
  addChild_supported [] { kind := ClassKind.note, layerN := none }
    { kind := ClassKind.layer, layerN := none } (by decide) (by decide) (Or.inl rfl)

/-! ## CmmeInput::CreateSection (iocmme.cpp lines 139-168) -/

/-- A staff as produced by the CMME importer for one section's measure: its
`@n` and the `@visible` attribute (`none` = not set, as for a parsed voice;
`some false` for the invisible placeholder). -/
structure CmmeStaff where
  n : Nat
  visible : Option Bool
deriving DecidableEq

/-- `CmmeInput::CreateSection` (iocmme.cpp lines 139-168) restricted to the
staves it adds to the section's measure: for each voice slot `i` below
`numVoices`, when the section holds a Voice element whose VoiceNum is `i + 1`
it is parsed by `CreateStaff` (iocmme.cpp lines 170-220), which constructs
`Staff(numVoice)` from that element's own VoiceNum — the matched value
`i + 1`; otherwise an invisible placeholder `Staff(i + 1)` is created.
`voiceNums` lists the VoiceNum values of the section's Voice elements. -/
def createSection (numVoices : Nat) (voiceNums : List Nat) : List CmmeStaff :=
  (List.range numVoices).map (fun i =>
    if (i + 1) ∈ voiceNums then { n := i + 1, visible := none }
    else { n := i + 1, visible := some false })

/-- C10: every imported music section yields exactly `numVoices` staves; the
staff of slot `i` carries `@n` = `i + 1` (so the `@n` values are exactly
1..numVoices, in order, and pairwise distinct), with present voice slots parsed
and missing slots yielding placeholders whose visibility is set to false. -/
theorem createSection_staves (numVoices : Nat) (voiceNums : List Nat) :
    (createSection numVoices voiceNums).length = numVoices ∧
    (createSection numVoices voiceNums).map (fun st => st.n) = List.range' 1 numVoices ∧
    (createSection numVoices voiceNums).map (fun st => st.visible)
      = (List.range' 1 numVoices).map
          (fun k => if k ∈ voiceNums then none else some false) ∧
    ((createSection numVoices voiceNums).map (fun st => st.n)).Nodup := by
  have hn : (createSection numVoices voiceNums).map (fun st => st.n)
      = List.range' 1 numVoices := by
    simp only [createSection, List.map_map, List.range'_eq_map_range]
    apply List.map_congr_left
    intro i _
    simp only [Function.comp_apply]
    split <;> simp [Nat.add_comm]
  refine ⟨?_, hn, ?_, ?_⟩
  · simp [createSection]
  · simp only [createSection, List.map_map, List.range'_eq_map_range, List.map_map]
    apply List.map_congr_left
    intro i _
    simp only [Function.comp_apply]
    rw [Nat.add_comm 1 i]
    split <;> rfl
  · rw [hn]
    exact List.nodup_range' 1 numVoices
